import Mathlib

/-!
Shallow embedding of the pcre wrapper library (Go): the global-match
iteration loop, the replacement splicer, split, close, and the glob
walker, together with theorems settling the specification claims.

The external matching primitive (pcre2_match_8) is abstracted as a
function from a start offset to an optional ovector; concrete primitives
for the patterns appearing in the spec's examples are modelled from the
spec, since the auto-translated pcre2 engine is outside the wrapper
source.
-/

namespace Pcre

/-- A single match record: the ovector produced by one successful call of
the matching primitive. `ms` and `me` mirror the first ovector pair
(whole-match start and end, `slice[0]` and `slice[1]` in the Go source);
`rest` holds the remaining capture-group offsets in order. -/
structure MatchRec where
  ms : Nat
  me : Nat
  rest : List Nat
deriving DecidableEq

/-- Full ovector of a match record, the flat offset list the Go code keeps
per match (`matches` in `Regexp.match`). -/
def MatchRec.ovec (m : MatchRec) : List Nat := m.ms :: m.me :: m.rest

/-- Whole-match end offset of the last accepted match,
`out[len(out)-1][1]` in the Go source; only consulted when the list is
non-empty. -/
def lastEnd (out : List MatchRec) : Nat :=
  match out.getLast? with
  | some m => m.me
  | none => 0

/-- Go slice expression `b[s:e]` (in-range uses only). -/
def goSlice (b : List Char) (s e : Nat) : List Char := (b.take e).drop s

/-- Go slice expression `b[s:e]` together with its bounds check: `none`
models the runtime panic (slice bounds out of range) raised when
`s ≤ e ≤ len(b)` fails. -/
def goSliceP (b : List Char) (s e : Nat) : Option (List Char) :=
  if s ≤ e ∧ e ≤ b.length then some ((b.take e).drop s) else none

/-- The global-match loop of `Regexp.match` (src/pcre.go lines 659-709),
with the primitive `pcre2_match_8` abstracted as `prim`: given a start
offset it returns the ovector of the leftmost match from that offset, or
`none` for PCRE2_ERROR_NOMATCH. `fuel` bounds the iteration count;
`subjLen + 1` is enough for any primitive meeting the offset contract
(match start at or after the requested offset). -/
def matchLoop (prim : Nat → Option MatchRec) (subjLen : Nat) (multi : Bool) :
    Nat → Nat → List MatchRec → List MatchRec
  | 0, _, out => out
  | fuel + 1, offset, out =>
    if offset < subjLen then
      match prim offset with
      | none => out
      | some m =>
        if m.ms = m.me ∧ out ≠ [] ∧ m.ms ≠ lastEnd out then
          matchLoop prim subjLen multi fuel (m.me + 1) (out ++ [m])
        else if m.ms = m.me then
          matchLoop prim subjLen multi fuel (m.me + 1) out
        else if multi then
          matchLoop prim subjLen multi fuel m.me (out ++ [m])
        else out ++ [m]
    else out

/-- `Regexp.match` (src/pcre.go lines 637-711): a zero-length subject
returns an empty match list immediately, before anything else runs;
otherwise the loop starts at offset 0. -/
def matchSubject (prim : Nat → Option MatchRec) (b : List Char) (multi : Bool) :
    List MatchRec :=
  if b.length = 0 then [] else matchLoop prim b.length multi (b.length + 1) 0 []

/-- `Regexp.Find` (src/pcre.go lines 125-135): the leftmost match's bytes,
`none` standing for Go's nil result. -/
def Find (prim : Nat → Option MatchRec) (b : List Char) : Option (List Char) :=
  match matchSubject prim b false with
  | [] => none
  | m :: _ => some (goSlice b m.ms m.me)

/-- `Regexp.Match` (src/pcre.go lines 360-362): whether Find is non-nil. -/
def Match (prim : Nat → Option MatchRec) (b : List Char) : Bool :=
  (Find prim b).isSome

/-- `Regexp.FindAllIndex` (src/pcre.go lines 178-195), restricted to the
whole-match pair it extracts from each record. -/
def FindAllIndex (prim : Nat → Option MatchRec) (b : List Char) (n : Int) :
    List (Nat × Nat) :=
  let ms := matchSubject prim b true
  if ms.length = 0 ∨ n = 0 then []
  else if 0 < n ∧ n < (ms.length : Int) then
    (ms.take n.toNat).map (fun m => (m.ms, m.me))
  else ms.map (fun m => (m.ms, m.me))

/-- Left brace character, written via its code point. -/
def lbrace : Char := Char.ofNat 123

/-- Right brace character, written via its code point. -/
def rbrace : Char := Char.ofNat 125

/-- Modelled from the spec: the Go standard library strconv.Atoi (not part
of this repository) parses an optional sign followed by decimal digits,
failing on anything else. -/
def atoi (s : List Char) : Option Int :=
  match s with
  | [] => none
  | c :: rest =>
    let digits := if c = '-' ∨ c = '+' then rest else s
    if digits ≠ [] ∧ digits.all Char.isDigit then
      let n : Nat := digits.foldl (fun acc d => acc * 10 + (d.toNat - 48)) 0
      some (if c = '-' then -(n : Int) else (n : Int))
    else none

/-- Modelled from the spec: the Go standard library os.Expand (not part of
this repository) scans the template for dollar-brace markers, replacing
each marker by the mapping applied to the name between the braces; an
unterminated marker is left as literal text. A mapping that panics
(returns `none`) aborts the whole expansion, as a Go panic would. The
fuel argument is the template length, enough since every step consumes
at least one character. -/
def expandAux (mapping : List Char → Option (List Char)) :
    Nat → List Char → Option (List Char)
  | 0, s => some s
  | _, [] => some []
  | fuel + 1, c :: rest =>
    if c = '$' then
      match rest with
      | c2 :: rest2 =>
        if c2 = lbrace then
          let name := rest2.takeWhile (· ≠ rbrace)
          let after := rest2.dropWhile (· ≠ rbrace)
          match after with
          | _ :: afterRest =>
            match mapping name with
            | none => none
            | some v => (expandAux mapping fuel afterRest).map (fun t => v ++ t)
          | [] => some (c :: rest)
        else (expandAux mapping fuel rest).map (fun t => c :: t)
      | [] => some [c]
    else (expandAux mapping fuel rest).map (fun t => c :: t)

/-- Template expansion entry point, Go os.Expand. -/
def expand (mapping : List Char → Option (List Char)) (s : List Char) :
    Option (List Char) :=
  expandAux mapping s.length s

/-- The expansion mapping closure inside `Regexp.ReplaceAll`
(src/pcre.go lines 395-411): a numeric name selects a group by number
(with 0 and numbers beyond the ovector's length expanding to nothing), a
non-numeric name goes through `SubexpIndex` (modelled as the function
`subexpIndex`, returning -1 when the name is absent). The group text is
read with the checked Go slice `src[match[2i]:match[2i+1]]`, so an
in-range group whose offsets are the `UNSET` sentinel (a group that did
not participate) produces the out-of-range panic, modelled as `none`. -/
def replMapping (subexpIndex : List Char → Int) (src : List Char) (m : MatchRec)
    (s : List Char) : Option (List Char) :=
  match atoi s with
  | some i =>
    if i = 0 ∨ (m.ovec.length : Int) < 2 * i + 1 then some []
    else goSliceP src (m.ovec.getD (2 * i).toNat 0) (m.ovec.getD (2 * i + 1).toNat 0)
  | none =>
    let i := subexpIndex s
    if i = -1 then some []
    else if i = 0 ∨ (m.ovec.length : Int) < 2 * i + 1 then some []
    else goSliceP src (m.ovec.getD (2 * i).toNat 0) (m.ovec.getD (2 * i + 1).toNat 0)

/-- `replaceBytes` (src/pcre.go lines 622-633): splice `repl` over the
span `[sOff+diff, eOff+diff)` of `src` and return the updated running
difference together with the new buffer. -/
def replaceBytes (src repl : List Char) (sOff eOff : Nat) (diff : Int) :
    Int × List Char :=
  let out := src.take ((sOff : Int) + diff).toNat ++ repl
    ++ src.drop ((eOff : Int) + diff).toNat
  (diff + ((out.length : Int) - (src.length : Int)), out)

/-- `Regexp.ReplaceAll` (src/pcre.go lines 381-420): expand the template
against each match (reading group text from the original subject) and
splice the expansions into the output buffer in order. `none` models the
Go panic escaping the loop when a group-text slice is out of range
(non-participating group with `UNSET` offsets); with zero matches the
subject itself is returned before any expansion runs. -/
def ReplaceAll (prim : Nat → Option MatchRec) (subexpIndex : List Char → Int)
    (src repl : List Char) : Option (List Char) :=
  let mlist := matchSubject prim src true
  if mlist = [] then some src
  else
    (mlist.foldl (fun acc m =>
      match acc with
      | none => none
      | some a =>
        match expand (replMapping subexpIndex src m) repl with
        | none => none
        | some replStr => some (replaceBytes a.2 replStr m.ms m.me a.1))
      (some ((0 : Int), src))).map (fun a => a.2)

/-- `Regexp.ReplaceAllFunc` (src/pcre.go lines 426-445). -/
def ReplaceAllFunc (prim : Nat → Option MatchRec) (src : List Char)
    (repl : List Char → List Char) : List Char :=
  let mlist := matchSubject prim src true
  if mlist = [] then src
  else
    (mlist.foldl (fun acc m =>
      replaceBytes acc.2 (repl (goSlice src m.ms m.me)) m.ms m.me acc.1)
      ((0 : Int), src)).2

/-- `Regexp.ReplaceAllLiteral` (src/pcre.go lines 450-468). -/
def ReplaceAllLiteral (prim : Nat → Option MatchRec) (src repl : List Char) :
    List Char :=
  let mlist := matchSubject prim src true
  if mlist = [] then src
  else
    (mlist.foldl (fun acc m =>
      replaceBytes acc.2 repl m.ms m.me acc.1) ((0 : Int), src)).2

/-- The accumulation loop of `Regexp.Split` (src/pcre.go lines 513-525):
walks the match list keeping the current segment start `beg` and the
last seen match start `e`, collecting the separated substrings, stopping
early once `n - 1` substrings were collected (for positive `n`). Returns
the collected strings together with the final `beg` and `e`. -/
def splitLoop (s : List Char) (n : Int) :
    List (Nat × Nat) → Nat → Nat → List (List Char) →
    List (List Char) × Nat × Nat
  | [], beg, e, strings => (strings, beg, e)
  | m :: rest, beg, e, strings =>
    if 0 < n ∧ (n - 1 : Int) ≤ (strings.length : Int) then (strings, beg, e)
    else
      let e2 := m.1
      let strings2 := if m.2 ≠ 0 then strings ++ [goSlice s beg e2] else strings
      splitLoop s n rest m.2 e2 strings2

/-- `Regexp.Split` (src/pcre.go lines 501-532). `expr` is the pattern
text the Regexp was compiled from. -/
def Split (expr : List Char) (prim : Nat → Option MatchRec) (s : List Char)
    (n : Int) : List (List Char) :=
  if n = 0 then []
  else if 0 < expr.length ∧ s.length = 0 then [[]]
  else
    let mlist := FindAllIndex prim s n
    let t := splitLoop s n mlist 0 0 []
    if t.2.2 ≠ s.length then t.1 ++ [s.drop t.2.1] else t.1

/-- State of a compiled Regexp relevant to `Close`: pointers to the
compiled code and the match context (0 = null) and whether the
thread-local storage is open. -/
structure RegexpState where
  re : Nat
  mctx : Nat
  tlsOpen : Bool
deriving DecidableEq

/-- Release actions `Close` performs, recorded in execution order. -/
inductive CloseAction where
  | freeCode : Nat → CloseAction
  | freeMatchContext : Nat → CloseAction
  | closeTLS : CloseAction
deriving DecidableEq

/-- `Regexp.Close` (src/pcre.go lines 724-740): a nil receiver returns
immediately with no actions; otherwise it frees the compiled code at
`re`, frees the match context at `mctx`, zeroes `re` (but not `mctx`),
and the deferred `tls.Close` runs last. -/
def Close : Option RegexpState → Option RegexpState × List CloseAction
  | none => (none, [])
  | some r =>
    (some { re := 0, mctx := r.mctx, tlsOpen := false },
      [CloseAction.freeCode r.re, CloseAction.freeMatchContext r.mctx,
        CloseAction.closeTLS])

/-- Modelled from the spec: filepath.Join (Go standard library, not part
of this repository) joins a directory and an entry name with the path
separator. -/
def joinPath (dir name : List Char) : List Char := dir ++ '/' :: name

/-- The WalkDir callback literal inside `Glob`
(src/unnamed/part_000 lines 132-137): appends the visited path when it
matches, ignores the incoming per-entry error, and always returns nil. -/
def globWalkFn (matchString : List Char → Bool) (found : List (List Char))
    (path : List Char) (_e : Option Nat) : List (List Char) × Option Nat :=
  (if matchString path then found ++ [path] else found, none)

/-- Modelled from the spec: filepath.WalkDir (Go standard library, not
part of this repository) visits the entries of the tree in order; each
visit carries the path and, when listing or statting that entry failed,
the error; a non-nil error returned by the callback aborts the walk and
becomes its result, otherwise the walk returns nil. The accumulator
threads the callback's match list. -/
def walkDirAcc
    (fn : List (List Char) → List Char → Option Nat → List (List Char) × Option Nat) :
    List (List Char × Option Nat) → List (List Char) →
    List (List Char) × Option Nat
  | [], acc => (acc, none)
  | (p, er) :: rest, acc =>
    match fn acc p er with
    | (acc2, some err) => (acc2, some err)
    | (acc2, none) => walkDirAcc fn rest acc2

/-- The recursive branch of `Glob` (src/unnamed/part_000 lines 131-140):
walk the tree, collecting matching paths; fail when the walk reports an
error. `events` is the abstract traversal of the directory tree. -/
def globRecursive (matchString : List Char → Bool)
    (events : List (List Char × Option Nat)) : Except Nat (List (List Char)) :=
  match walkDirAcc (globWalkFn matchString) events [] with
  | (_, some err) => Except.error err
  | (ms, none) => Except.ok ms

/-- The flat branch of `Glob` (src/unnamed/part_000 lines 141-153): list
the directory (propagating a listing error), then keep the children
whose joined path matches. -/
def globFlat (matchString : List Char → Bool) (dir : List Char)
    (readDirRes : Except Nat (List (List Char))) : Except Nat (List (List Char)) :=
  match readDirRes with
  | Except.error e => Except.error e
  | Except.ok files =>
    Except.ok (files.foldl (fun ms name =>
      if matchString (joinPath dir name) then ms ++ [joinPath dir name] else ms) [])

/-- Length of the maximal run of a given character at position `p`. -/
def charRun (c : Char) (s : List Char) (p : Nat) : Nat :=
  ((s.drop p).takeWhile (· = c)).length

/-- Modelled from the spec: the matching primitive (`matchOnce`) for the
pattern a-star from the spec's split example. The engine itself is the
auto-translated pcre2 source, outside this repository's wrapper code;
leftmost-greedy semantics for a-star mean the match starts at the
requested offset and covers the maximal run of the letter a there. -/
def primAStar (s : List Char) (off : Nat) : Option MatchRec :=
  some ⟨off, off + charRun 'a' s off, []⟩

/-- SubexpIndex model for patterns with no named groups: every name is
absent. -/
def noNames : List Char → Int := fun _ => -1

/-- Holds when the head of a match list, if any, is a non-empty match. -/
def firstNonEmpty : List MatchRec → Prop
  | [] => True
  | m :: _ => m.ms ≠ m.me

/-- Relation between consecutive emitted matches: an emitted zero-width
match never starts at the previous match's end. -/
def emptySep (a b : MatchRec) : Prop := b.ms = b.me → a.me ≠ b.ms

/-- Subject of the spec's split example. -/
def subjSplit : List Char := "abaabaccadaaae".data

/-- Pattern text of the split example. -/
def exprAStar : List Char := "a*".data

/-- Primitive for the split example: pattern a-star over `subjSplit`. -/
def primSplit : Nat → Option MatchRec := primAStar subjSplit

/-- A primitive that never matches. -/
def primNone : Nat → Option MatchRec := fun _ => none

/-- A primitive whose sole match spans the whole four-byte subject. -/
def primWhole : Nat → Option MatchRec := fun _ => some ⟨0, 4, []⟩

/-- Four-byte sample subject. -/
def abcdStr : List Char := "abcd".data

/-- Two-byte sample replacement. -/
def xyStr : List Char := "xy".data

/-- Appending a match that is non-empty, or whose start differs from the
previous accepted match's end, preserves the emission invariants. -/
theorem invariant_append (out : List MatchRec) (m : MatchRec)
    (h : firstNonEmpty out ∧ List.Chain' emptySep out)
    (hm : m.ms ≠ m.me ∨ (out ≠ [] ∧ m.ms ≠ lastEnd out)) :
    firstNonEmpty (out ++ [m]) ∧ List.Chain' emptySep (out ++ [m]) := by
  constructor
  · cases out with
    | nil =>
      cases hm with
      | inl h1 => exact h1
      | inr h2 => exact absurd rfl h2.1
    | cons a l => exact h.1
  · rw [List.chain'_append]
    refine ⟨h.2, List.chain'_singleton m, ?_⟩
    intro x hx y hy
    have hxl : out.getLast? = some x := hx
    have hym : y = m := by
      simp only [List.head?] at hy
      exact (Option.some_inj.mp hy).symm
    subst hym
    intro hemp
    cases hm with
    | inl h1 => exact absurd hemp h1
    | inr h2 =>
      have : lastEnd out = x.me := by
        rw [lastEnd, hxl]
      intro hcon
      exact h2.2 (by rw [this, ← hcon])

/-- The match loop preserves the emission invariants: the first emitted
match is non-empty and consecutive emitted matches satisfy `emptySep`. -/
theorem matchLoop_invariant (prim : Nat → Option MatchRec) (subjLen : Nat)
    (multi : Bool) :
    ∀ fuel offset out, firstNonEmpty out ∧ List.Chain' emptySep out →
      firstNonEmpty (matchLoop prim subjLen multi fuel offset out) ∧
      List.Chain' emptySep (matchLoop prim subjLen multi fuel offset out) := by
  intro fuel
  induction fuel with
  | zero =>
    intro offset out h
    simpa only [matchLoop] using h
  | succ fuel ih =>
    intro offset out h
    rw [matchLoop]
    split
    · split
      · exact h
      · rename_i m _
        split
        · rename_i h1
          exact ih _ _ (invariant_append out m h (Or.inr ⟨h1.2.1, h1.2.2⟩))
        · split
          · exact ih _ _ h
          · rename_i h1 h2
            split
            · exact ih _ _ (invariant_append out m h (Or.inl h2))
            · exact invariant_append out m h (Or.inl h2)
    · exact h

/-- With `multi = false` and an empty accumulator, the match loop returns
either nothing or a single non-empty match. -/
theorem matchLoop_single (prim : Nat → Option MatchRec) (subjLen : Nat) :
    ∀ fuel offset,
      matchLoop prim subjLen false fuel offset [] = [] ∨
      ∃ m, matchLoop prim subjLen false fuel offset [] = [m] ∧ m.ms ≠ m.me := by
  intro fuel
  induction fuel with
  | zero =>
    intro offset
    left
    simp only [matchLoop]
  | succ fuel ih =>
    intro offset
    rw [matchLoop]
    split
    · split
      · left
        rfl
      · rename_i m _
        split
        · rename_i h1
          exact absurd rfl h1.2.1
        · split
          · exact ih _
          · rename_i h1 h2
            split
            · rename_i hmulti
              exact absurd hmulti (by simp)
            · right
              exact ⟨m, rfl, h2⟩
    · left
      rfl

/-- Walking with the Glob callback never produces an error and collects
exactly the matching visited paths, in order. -/
theorem walkDirAcc_globWalkFn (m : List Char → Bool) :
    ∀ (events : List (List Char × Option Nat)) (acc : List (List Char)),
      walkDirAcc (globWalkFn m) events acc
        = (acc ++ (events.map Prod.fst).filter m, none) := by
  intro events
  induction events with
  | nil =>
    intro acc
    simp [walkDirAcc]
  | cons ev rest ih =>
    intro acc
    rw [walkDirAcc]
    show walkDirAcc (globWalkFn m) rest
        (if m ev.1 then acc ++ [ev.1] else acc) = _
    rw [ih]
    by_cases hev : m ev.1
    · simp [hev, List.filter_cons]
    · simp [hev, List.filter_cons]

/-- Folding the flat-listing accumulation collects exactly the children
whose joined path matches, in order. -/
theorem foldl_collect (m : List Char → Bool) (j : List Char → List Char) :
    ∀ (files : List (List Char)) (acc : List (List Char)),
      files.foldl (fun ms name => if m (j name) then ms ++ [j name] else ms) acc
        = acc ++ (files.map j).filter m := by
  intro files
  induction files with
  | nil =>
    intro acc
    simp
  | cons f rest ih =>
    intro acc
    rw [List.foldl_cons, ih]
    by_cases hf : m (j f)
    · simp [hf, List.filter_cons]
    · simp [hf, List.filter_cons]

/-- C1 counterexample: during global enumeration over the split-example
subject with the a-star primitive, the zero-width match at offset 7 IS
emitted (it is not adjacent to the previous accepted match's end 6), so
a zero-width whole match can appear in the result sequence. -/
theorem c1_counterexample :
    matchSubject primSplit subjSplit true
      = [⟨0, 1, []⟩, ⟨2, 4, []⟩, ⟨5, 6, []⟩, ⟨7, 7, []⟩, ⟨8, 9, []⟩,
          ⟨10, 13, []⟩] ∧
    ∃ m, m ∈ matchSubject primSplit subjSplit true ∧ m.ms = m.me :=
  ⟨by decide, ⟨⟨7, 7, []⟩, by decide, rfl⟩⟩

/-- C1 (amended): during global match enumeration, an empty match is
discarded (cursor advanced to end + 1, nothing emitted) when no match
has been accepted yet or when its start equals the previously accepted
match's end; an empty match whose start differs from the previous
accepted match's end is emitted. Consequently the first emitted match is
never empty, and every emitted empty match starts away from its
predecessor's end. -/
theorem c1_empty_match_emission_rule :
    ∀ (prim : Nat → Option MatchRec) (b : List Char) (multi : Bool),
      firstNonEmpty (matchSubject prim b multi) ∧
      List.Chain' emptySep (matchSubject prim b multi) := by
  intro prim b multi
  rw [matchSubject]
  split
  · exact ⟨trivial, List.chain'_nil⟩
  · exact matchLoop_invariant prim b.length multi (b.length + 1) 0 []
      ⟨trivial, List.chain'_nil⟩

/-- C3: the splice step rewrites the span shifted by the running drift and
updates the drift by the replacement length minus the span length; one
match spanning the whole subject replaced literally yields exactly the
replacement. -/
theorem c3_splice_drift :
    (∀ (src repl : List Char) (sOff eOff : Nat) (diff : Int),
      0 ≤ (sOff : Int) + diff → (eOff : Int) + diff ≤ (src.length : Int) →
      sOff ≤ eOff →
      (replaceBytes src repl sOff eOff diff).1
          = diff + (repl.length : Int) - ((eOff : Int) - (sOff : Int)) ∧
      ((replaceBytes src repl sOff eOff diff).2.length : Int)
          = (src.length : Int) + (repl.length : Int)
            - ((eOff : Int) - (sOff : Int))) ∧
    (∀ (prim : Nat → Option MatchRec) (src repl : List Char) (rest : List Nat),
      matchSubject prim src true = [⟨0, src.length, rest⟩] →
      ReplaceAllLiteral prim src repl = repl) := by
  constructor
  · intro src repl sOff eOff diff h0 h1 h2
    have hlen : ((replaceBytes src repl sOff eOff diff).2.length : Int)
        = (src.length : Int) + (repl.length : Int)
          - ((eOff : Int) - (sOff : Int)) := by
      simp only [replaceBytes, List.length_append, List.length_take,
        List.length_drop]
      push_cast
      omega
    refine ⟨?_, hlen⟩
    simp only [replaceBytes] at hlen ⊢
    omega
  · intro prim src repl rest h
    simp only [ReplaceAllLiteral, h]
    rw [if_neg (by simp)]
    simp only [List.foldl_cons, List.foldl_nil, replaceBytes]
    simp [List.drop_length]

/-- C3 witness: a concrete splice (two bytes over a two-byte span at
drift 0) and a concrete whole-subject literal replacement. -/
theorem c3_splice_drift_witness :
    ((replaceBytes abcdStr xyStr 1 3 0).1 = 0 ∧
      ((replaceBytes abcdStr xyStr 1 3 0).2.length : Int) = 4) ∧
    ReplaceAllLiteral primWhole abcdStr xyStr = xyStr := by
  constructor
  · have h := c3_splice_drift.1 abcdStr xyStr 1 3 0 (by decide) (by decide)
      (by decide)
    exact ⟨by rw [h.1]; decide, by rw [h.2]; decide⟩
  · exact c3_splice_drift.2 primWhole abcdStr xyStr [] (by decide)

/-- C4: when the pattern has zero matches in the subject, every
replacement operation returns the subject itself, whatever the
replacement argument. -/
theorem c4_no_match_identity :
    ∀ (prim : Nat → Option MatchRec) (subexpIndex : List Char → Int)
      (src repl : List Char) (f : List Char → List Char),
      matchSubject prim src true = [] →
      ReplaceAll prim subexpIndex src repl = some src ∧
      ReplaceAllFunc prim src f = src ∧
      ReplaceAllLiteral prim src repl = src := by
  intro prim si src repl f h
  refine ⟨?_, ?_, ?_⟩ <;>
    simp [ReplaceAll, ReplaceAllFunc, ReplaceAllLiteral, h]

/-- C4 witness: the never-matching primitive on a four-byte subject. -/
theorem c4_no_match_identity_witness :
    ReplaceAll primNone noNames abcdStr xyStr = some abcdStr ∧
    ReplaceAllFunc primNone abcdStr id = abcdStr ∧
    ReplaceAllLiteral primNone abcdStr xyStr = abcdStr :=
  c4_no_match_identity primNone noNames abcdStr xyStr id (by decide)

/-- C5: splitting the example subject on a-star with at most five parts
yields the spec's five substrings; splitting the empty string with a
non-empty pattern and a nonzero count yields the singleton empty string;
a count of zero yields the empty result for every subject. -/
theorem c5_split_concrete :
    Split exprAStar primSplit subjSplit 5
      = [[], ['b'], ['b'], ['c'], "cadaaae".data] ∧
    (∀ (expr : List Char) (prim : Nat → Option MatchRec) (n : Int),
      0 < expr.length → n ≠ 0 → Split expr prim [] n = [[]]) ∧
    (∀ (expr : List Char) (prim : Nat → Option MatchRec) (s : List Char),
      Split expr prim s 0 = []) := by
  refine ⟨by decide, ?_, ?_⟩
  · intro expr prim n h1 h2
    rw [Split, if_neg h2, if_pos ⟨h1, rfl⟩]
  · intro expr prim s
    rw [Split, if_pos rfl]

/-- C5 witness: the empty-subject clause at the a-star pattern text with
count three. -/
theorem c5_split_concrete_witness :
    Split exprAStar primSplit [] 3 = [[]] :=
  c5_split_concrete.2.1 exprAStar primSplit 3 (by decide) (by decide)

/-- C6: Close on a nil receiver is a no-op, but a second Close on an
already-closed value frees the match context a second time (the first
Close zeroes only the compiled-code pointer), so the match-context
resource is released twice, not exactly once. -/
theorem c6_close_double_release :
    Close (none : Option RegexpState) = (none, []) ∧
    (Close (some ⟨1, 2, true⟩)).1 = some ⟨0, 2, false⟩ ∧
    ((Close (some ⟨1, 2, true⟩)).2
        ++ (Close (Close (some ⟨1, 2, true⟩)).1).2).count
      (CloseAction.freeMatchContext 2) = 2 := by
  decide

/-- C7 counterexample: in the recursive walk branch, a traversal error
reported for a visited entry is swallowed (the callback ignores it and
returns nil), so Glob succeeds instead of failing with that error. -/
theorem c7_counterexample :
    globRecursive (fun _ => false) [("x".data, some 7)]
      = Except.ok ([] : List (List Char)) ∧
    Except.ok ([] : List (List Char)) ≠ (Except.error 7 : Except Nat (List (List Char))) :=
  ⟨rfl, by simp⟩

/-- C7 (amended): a listing error in the flat branch propagates as Glob's
failure, but in the recursive walk branch per-entry errors are ignored
and the walk always succeeds; in both branches a visited path that fails
to match is silently skipped (the result is exactly the matching paths,
with no error). -/
theorem c7_glob_error_handling :
    (∀ (m : List Char → Bool) (dir : List Char) (e : Nat),
      globFlat m dir (Except.error e) = Except.error e) ∧
    (∀ (m : List Char → Bool) (dir : List Char) (files : List (List Char)),
      globFlat m dir (Except.ok files)
        = Except.ok ((files.map (joinPath dir)).filter m)) ∧
    (∀ (m : List Char → Bool) (events : List (List Char × Option Nat)),
      globRecursive m events
        = Except.ok ((events.map Prod.fst).filter m)) := by
  refine ⟨fun m dir e => rfl, ?_, ?_⟩
  · intro m dir files
    simp only [globFlat]
    rw [foldl_collect m (joinPath dir) files []]
    rfl
  · intro m events
    simp only [globRecursive]
    rw [walkDirAcc_globWalkFn m events []]
    simp

/-- C9: every matching operation on a zero-length subject reports no
match for every primitive whatsoever (so the primitive's behavior,
including its ability to match the empty string, is never consulted). -/
theorem c9_empty_subject_no_match :
    ∀ (prim : Nat → Option MatchRec) (multi : Bool),
      matchSubject prim [] multi = [] ∧ Find prim [] = none ∧
      Match prim [] = false := by
  intro prim multi
  exact ⟨rfl, rfl, rfl⟩

/-- C10: a single-match operation returns either no match at all (and
Match is false) or exactly one non-empty match, never a zero-width one;
in the latter case Find returns that match's bytes. -/
theorem c10_single_match_never_empty :
    ∀ (prim : Nat → Option MatchRec) (b : List Char),
      (matchSubject prim b false = [] ∧ Match prim b = false) ∨
      ∃ m, matchSubject prim b false = [m] ∧ m.ms ≠ m.me ∧
        Find prim b = some (goSlice b m.ms m.me) := by
  intro prim b
  by_cases hb : b.length = 0
  · left
    constructor
    · simp [matchSubject, hb]
    · simp [Match, Find, matchSubject, hb]
  · rcases matchLoop_single prim b.length (b.length + 1) 0 with h | ⟨m, hm, hme⟩
    · left
      constructor
      · simp [matchSubject, hb, h]
      · simp [Match, Find, matchSubject, hb, h]
    · right
      refine ⟨m, ?_, hme, ?_⟩
      · simp [matchSubject, hb, hm]
      · simp [Find, matchSubject, hb, hm]

